import Mathlib

/-!
Formal model of the S-parameter extraction pipeline of the
`brain-emi-simulation` repository.

The repository post-processes FDTD simulator output into 16-port
scattering matrices.  The scripts modelled here are:

* `extract_sparameters.py`  — wave-variable S-matrix builder, Touchstone
  writer, per-scenario driver (`compute_s_matrix`, `write_s16p`,
  `process_scenario`);
* `generate_s16p.py`        — field-ratio S-matrix column builder
  (`calculate_s_matrix_column`) and its Touchstone writer
  (`save_s16p_file`);
* `extract_port_sparameters.py` — per-port V/I S-matrix builder
  (`extract_s_matrix_from_monopole_simulations`);
* `validate_s16p.py`        — Touchstone parser and passivity check
  (`parse_s16p`, `validate`);
* `numpy`'s `rfftfreq`, modelled from its documented semantics, as
  called at `generate_s16p.py:184` and `extract_rx_sparameters.py:146`.

Numeric values are modelled in exact arithmetic: complex samples as
Gaussian rationals (`Cx`, a pair of `ℚ`), magnitudes by their squares
where a source comparison `np.abs z ⋈ t` on non-negative `t` is
rendered as the equivalent `Cx.abs2 z ⋈ t^2`.  The bridge `Cx.toC`
into Mathlib's `ℂ` is used to state claims that mention true
magnitudes or the irrational normalisation factor `2·sqrt Z0`.
-/

/-- Complex scalar with exact rational components.  Models the complex
floating-point values (`numpy complex128`) flowing through the pipeline. -/
structure Cx where
  re : ℚ
  im : ℚ
deriving DecidableEq

namespace Cx

def add (z w : Cx) : Cx := ⟨z.re + w.re, z.im + w.im⟩

def sub (z w : Cx) : Cx := ⟨z.re - w.re, z.im - w.im⟩

def mul (z w : Cx) : Cx := ⟨z.re * w.re - z.im * w.im, z.re * w.im + z.im * w.re⟩

instance : Add Cx := ⟨Cx.add⟩

instance : Sub Cx := ⟨Cx.sub⟩

instance : Mul Cx := ⟨Cx.mul⟩

instance : Zero Cx := ⟨⟨0, 0⟩⟩

/-- Embed a rational (e.g. the reference impedance `Z0 = 50.0` or the
floor constant `1e-20`) as a complex scalar. -/
def ofRat (q : ℚ) : Cx := ⟨q, 0⟩

/-- Squared magnitude: `np.abs z ** 2`.  Comparisons `np.abs z ⋈ t`
(with `t ≥ 0`) in the sources are modelled as `abs2 z ⋈ t^2`. -/
def abs2 (z : Cx) : ℚ := z.re * z.re + z.im * z.im

/-- Complex division as numpy computes it (for a zero denominator the
model yields `0`, a case every modelled call site guards away). -/
def div (z w : Cx) : Cx :=
  ⟨(z.re * w.re + z.im * w.im) / w.abs2, (z.im * w.re - z.re * w.im) / w.abs2⟩

@[simp] theorem add_re (z w : Cx) : (z + w).re = z.re + w.re := rfl

@[simp] theorem add_im (z w : Cx) : (z + w).im = z.im + w.im := rfl

@[simp] theorem sub_re (z w : Cx) : (z - w).re = z.re - w.re := rfl

@[simp] theorem sub_im (z w : Cx) : (z - w).im = z.im - w.im := rfl

@[simp] theorem mul_re (z w : Cx) : (z * w).re = z.re * w.re - z.im * w.im := rfl

@[simp] theorem mul_im (z w : Cx) : (z * w).im = z.re * w.im + z.im * w.re := rfl

@[simp] theorem zero_re : (0 : Cx).re = 0 := rfl

@[simp] theorem zero_im : (0 : Cx).im = 0 := rfl

@[simp] theorem ofRat_re (q : ℚ) : (ofRat q).re = q := rfl

@[simp] theorem ofRat_im (q : ℚ) : (ofRat q).im = 0 := rfl

theorem abs2_nonneg (z : Cx) : 0 ≤ z.abs2 := by
  have h1 := mul_self_nonneg z.re
  have h2 := mul_self_nonneg z.im
  unfold abs2; linarith

theorem abs2_eq_zero {z : Cx} : z.abs2 = 0 ↔ z = 0 := by
  constructor
  · intro h
    have h1 := mul_self_nonneg z.re
    have h2 := mul_self_nonneg z.im
    have hre : z.re = 0 := by
      by_contra hc
      have : 0 < z.re * z.re := mul_self_pos.mpr hc
      have : z.abs2 ≠ 0 := by unfold abs2; nlinarith
      exact this h
    have him : z.im = 0 := by
      by_contra hc
      have : 0 < z.im * z.im := mul_self_pos.mpr hc
      have : z.abs2 ≠ 0 := by unfold abs2; nlinarith
      exact this h
    cases z; simp_all; rfl
  · rintro rfl; unfold abs2; simp

/-- Bridge into Mathlib's complex numbers. -/
def toC (z : Cx) : ℂ := ⟨(z.re : ℝ), (z.im : ℝ)⟩

@[simp] theorem toC_re (z : Cx) : (toC z).re = (z.re : ℝ) := rfl

@[simp] theorem toC_im (z : Cx) : (toC z).im = (z.im : ℝ) := rfl

theorem toC_add (z w : Cx) : toC (z + w) = toC z + toC w := by
  apply Complex.ext <;> simp

theorem toC_sub (z w : Cx) : toC (z - w) = toC z - toC w := by
  apply Complex.ext <;> simp

theorem toC_mul (z w : Cx) : toC (z * w) = toC z * toC w := by
  apply Complex.ext <;> simp

@[simp] theorem toC_zero : toC 0 = 0 := by
  apply Complex.ext <;> simp

theorem toC_ofRat (q : ℚ) : toC (ofRat q) = ((q : ℝ) : ℂ) := by
  apply Complex.ext <;> simp

theorem normSq_toC (z : Cx) : Complex.normSq (toC z) = (z.abs2 : ℝ) := by
  unfold abs2
  push_cast
  simp [Complex.normSq_mk, toC]

theorem toC_eq_zero {z : Cx} : toC z = 0 ↔ z = 0 := by
  constructor
  · intro h
    have hre : (z.re : ℝ) = 0 := by
      have := congrArg Complex.re h; simpa using this
    have him : (z.im : ℝ) = 0 := by
      have := congrArg Complex.im h; simpa using this
    cases z
    simp_all [Rat.cast_eq_zero]
    rfl
  · rintro rfl; simp

/-- `Cx.div` agrees with complex division (both send a zero denominator
to zero). -/
theorem toC_div (z w : Cx) : toC (z.div w) = toC z / toC w := by
  apply Complex.ext
  · rw [Complex.div_re]
    show (((z.re * w.re + z.im * w.im) / w.abs2 : ℚ) : ℝ) = _
    rw [normSq_toC]
    push_cast
    rw [add_div]
    simp only [toC_re, toC_im]
  · rw [Complex.div_im]
    show (((z.im * w.re - z.re * w.im) / w.abs2 : ℚ) : ℝ) = _
    rw [normSq_toC]
    push_cast
    rw [sub_div]
    simp only [toC_re, toC_im]

end Cx

namespace Np

/-- Modelled from the numpy documentation of `np.fft.rfftfreq(n, d)`:
the frequency axis `[0, 1, ..., n//2] / (n*d)` of the one-sided FFT,
as called by `generate_s16p.py:184` and `extract_rx_sparameters.py:146`. -/
def rfftfreq (n : ℕ) (d : ℚ) : List ℚ :=
  (List.range (n / 2 + 1)).map (fun (k : ℕ) => (k : ℚ) / ((n : ℚ) * d))

end Np

/-- Element of a mapped range list. -/
theorem getD_map_range {α : Type} (g : ℕ → α) (d : α) {n k : ℕ} (h : k < n) :
    ((List.range n).map g).getD k d = g k := by
  rw [List.getD_eq_getElem?_getD, List.getElem?_map, List.getElem?_range h]
  rfl

/-- C3: for every real input time series of even length `L` sampled with
time step `dt`, the spectral transform's frequency axis
(`np.fft.rfftfreq L dt`) has exactly `L/2 + 1` bins, bin 0 is DC,
the last bin is the Nyquist frequency `1/(2*dt)`, and bin `k` is
`k / (L*dt)`. -/
theorem c3_spectral_bins (L : ℕ) (dt : ℚ) (hL2 : L % 2 = 0) (hL0 : 0 < L)
    (hdt : 0 < dt) :
    (Np.rfftfreq L dt).length = L / 2 + 1 ∧
    (Np.rfftfreq L dt).getD 0 0 = 0 ∧
    (Np.rfftfreq L dt).getD (L / 2) 0 = 1 / (2 * dt) ∧
    (∀ k, k < L / 2 + 1 → (Np.rfftfreq L dt).getD k 0 = (k : ℚ) / ((L : ℚ) * dt)) := by
  have hlen : (Np.rfftfreq L dt).length = L / 2 + 1 := by
    unfold Np.rfftfreq
    rw [List.length_map, List.length_range]
  refine ⟨hlen, ?_, ?_, ?_⟩
  · unfold Np.rfftfreq
    rw [getD_map_range _ _ (Nat.succ_pos _)]
    simp
  · unfold Np.rfftfreq
    rw [getD_map_range _ _ (Nat.lt_succ_self _)]
    have hL : L = 2 * (L / 2) := by omega
    have hm0 : 0 < L / 2 := by omega
    have hmQ : ((L / 2 : ℕ) : ℚ) ≠ 0 := by
      exact_mod_cast Nat.pos_iff_ne_zero.mp hm0
    have hdt' : dt ≠ 0 := ne_of_gt hdt
    rw [show ((L : ℕ) : ℚ) = 2 * ((L / 2 : ℕ) : ℚ) by exact_mod_cast congrArg (Nat.cast : ℕ → ℚ) hL]
    field_simp
    ring
  · intro k hk
    unfold Np.rfftfreq
    rw [getD_map_range _ _ hk]

/-- C3 witness: evaluation at `L = 4`, `dt = 1/2`. -/
theorem c3_spectral_bins_witness :
    (4 % 2 = 0 ∧ 0 < 4 ∧ (0 : ℚ) < 1/2) ∧
    (Np.rfftfreq 4 (1/2)).getD (4 / 2) 0 = 1 / (2 * (1/2)) :=
  ⟨by norm_num, (c3_spectral_bins 4 (1/2) (by norm_num) (by norm_num) (by norm_num)).2.2.1⟩

namespace ExtractSP

/-!
Model of `extract_sparameters.py`: the wave-variable S-matrix builder
`compute_s_matrix` (lines 80-132), its Touchstone writer `write_s16p`
(lines 139-177, modelled in the Touchstone section below), and the
per-scenario driver `process_scenario` (lines 187-227).

Port spectra are taken at the point after the FFT/frequency-mask step
(`np.fft.rfft(...)[freq_mask]`), indexed by retained frequency bin;
the builder claims quantify over these spectra.
-/

/-- One transmission line's voltage and current spectra. -/
structure Port where
  V : ℕ → Cx
  I : ℕ → Cx

/-- The `tls` map one `.out` file yields: which of the 16 transmission
lines are present, with their spectra. -/
abbrev Run := Fin 16 → Option Port

/-- The input directory: for each transmit index, `none` when the file
`scenario_XXX_txJJ.out` is absent (`os.path.isfile` false), `some
(.error ())` when reading it raises (e.g. `read_tl_data`'s missing
`tls` group, line 62), `some (.ok run)` on success. -/
abbrev Files := Fin 16 → Option (Except Unit Run)

/-- The S-matrix being assembled: `S[i][j][f]` = receive i, transmit j,
frequency bin f. -/
abbrev SMat := Fin 16 → Fin 16 → ℕ → Cx

/-- `np.zeros((N_PORTS, N_PORTS, n_freq))` (line 113). -/
def zeroS : SMat := fun _ _ _ => 0

/-- Reference impedance `Z0 = 50.0` (line 38). -/
def Z0 : ℚ := 50

/-- Scaled incident-wave numerator `V_j + Z0*I_j`.  The source's
`a_j = (V_j + Z0*I_j)/(2*np.sqrt(Z0))` (line 118) equals
`aNum / (2*sqrt Z0)`; see `aWave` for the unscaled wave. -/
def aNum (p : Port) (f : ℕ) : Cx := p.V f + Cx.ofRat Z0 * p.I f

/-- Scaled scattered-wave numerator `V_i - Z0*I_i` (line 126). -/
def bNum (p : Port) (f : ℕ) : Cx := p.V f - Cx.ofRat Z0 * p.I f

/-- Reference impedance as a real number. -/
def Z0R : ℝ := 50

/-- Incident wave `a_j(f) = (V_j(f) + Z0*I_j(f)) / (2*sqrt Z0)`
(line 118), over Mathlib's `ℂ`.  This is a statement-side formula (the
executable embedding works with the scaled numerator `aNum`), hence not
compiled. -/
noncomputable def aWave (p : Port) (f : ℕ) : ℂ :=
  (Cx.toC (p.V f) + (Z0R : ℂ) * Cx.toC (p.I f)) / ((2 : ℂ) * ((Real.sqrt Z0R : ℝ) : ℂ))

/-- Scattered wave `b_i(f) = (V_i(f) - Z0*I_i(f)) / (2*sqrt Z0)`
(line 126); statement-side formula like `aWave`. -/
noncomputable def bWave (p : Port) (f : ℕ) : ℂ :=
  (Cx.toC (p.V f) - (Z0R : ℂ) * Cx.toC (p.I f)) / ((2 : ℂ) * ((Real.sqrt Z0R : ℝ) : ℂ))

/-- Squared guard threshold: the source's test `np.abs(a_j) > 1e-30`
(line 130) is equivalent to `abs2 aNum > (1e-30 * 2 * sqrt 50)^2 =
2/10^58` on the scaled numerator. -/
def guardSq : ℚ := 2 / 10 ^ 58

/-- Line 130, `np.where(np.abs(a_j) > 1e-30, b_i / a_j, 0.0)`:
the common positive factor `2*sqrt Z0` cancels in the ratio and squares
into the guard threshold. -/
def sValue (txp rxp : Port) (f : ℕ) : Cx :=
  if guardSq < (aNum txp f).abs2 then (bNum rxp f).div (aNum txp f) else 0

/-- Assignment `S[rx-1, tx-1, :] = v` (line 130). -/
def setEntry (S : SMat) (i j : Fin 16) (v : ℕ → Cx) : SMat :=
  fun i' j' f => if i' = i ∧ j' = j then v f else S i' j' f

/-- Body of the receive loop (lines 121-130): an absent receive port is
skipped silently (`continue`, line 123); a present one writes
`S[rx-1, tx-1, :]`. -/
def rxBody (j : Fin 16) (txp : Port) (run : Run) (S : SMat) (i : Fin 16) : SMat :=
  match run i with
  | none => S
  | some rxp => setEntry S i j (sValue txp rxp)

/-- The full receive loop for one transmit file: fills column `j`. -/
def colStep (S : SMat) (j : Fin 16) (txp : Port) (run : Run) : SMat :=
  (List.finRange 16).foldl (rxBody j txp run) S

/-- The transmit loop of `compute_s_matrix` (lines 99-130): a missing
file prints `WARNING: missing ..., skipping column tx` and leaves the
column alone (warnings are recorded as the skipped transmit index); a
read error propagates; a present file whose own transmit line `tls[tx]`
is absent raises `KeyError` (line 116), modelled as `.error ()`.  `S`
is created only on the first present file (`S = None` before, lines
96/108-113), modelled by the `Option SMat` accumulator. -/
def computeGo (files : Files) : List (Fin 16) → Option SMat → List (Fin 16) →
    Except Unit (Option SMat × List (Fin 16))
  | [], acc, ws => .ok (acc, ws)
  | j :: rest, acc, ws =>
    match files j with
    | none => computeGo files rest acc (ws ++ [j])
    | some (.error e) => .error e
    | some (.ok run) =>
      match run j with
      | none => .error ()
      | some txp => computeGo files rest (some (colStep (acc.getD zeroS) j txp run)) ws

/-- `compute_s_matrix` (lines 80-132). -/
def compute_s_matrix (files : Files) : Except Unit (Option SMat × List (Fin 16)) :=
  computeGo files (List.finRange 16) none []

/-- Entry accessor of a computation result (zero when the matrix was
never initialised or the computation raised). -/
def entryAt (r : Except Unit (Option SMat × List (Fin 16))) (i j : Fin 16) (f : ℕ) : Cx :=
  match r with
  | .ok (acc, _) => (acc.getD zeroS) i j f
  | .error _ => 0

/-- Warning accessor of a computation result. -/
def warnsAt (r : Except Unit (Option SMat × List (Fin 16))) : List (Fin 16) :=
  match r with
  | .ok (_, ws) => ws
  | .error _ => []

/-- The computation finished without raising. -/
def okB {α : Type} : Except Unit α → Bool
  | .ok _ => true
  | .error _ => false

theorem foldl_rxBody_col_frame (j : Fin 16) (txp : Port) (run : Run) (i j' : Fin 16)
    (f : ℕ) (hj : j' ≠ j) :
    ∀ (l : List (Fin 16)) (S : SMat), (l.foldl (rxBody j txp run) S) i j' f = S i j' f := by
  intro l
  induction l with
  | nil => intro S; rfl
  | cons a t ih =>
    intro S
    rw [List.foldl_cons, ih]
    cases hra : run a with
    | none => simp [rxBody, hra]
    | some rxp => simp [rxBody, hra, setEntry, hj]

theorem foldl_rxBody_row_frame (j : Fin 16) (txp : Port) (run : Run) (i j' : Fin 16)
    (f : ℕ) :
    ∀ (l : List (Fin 16)) (S : SMat), i ∉ l →
      (l.foldl (rxBody j txp run) S) i j' f = S i j' f := by
  intro l
  induction l with
  | nil => intro S _; rfl
  | cons a t ih =>
    intro S hmem
    have hia : i ≠ a := fun h => hmem (h ▸ List.mem_cons_self a t)
    have hit : i ∉ t := fun h => hmem (List.mem_cons_of_mem a h)
    rw [List.foldl_cons, ih _ hit]
    cases hra : run a with
    | none => simp [rxBody, hra]
    | some rxp => simp [rxBody, hra, setEntry, hia]

theorem foldl_rxBody_skip (j : Fin 16) (txp : Port) (run : Run) (i j' : Fin 16)
    (f : ℕ) (hrx : run i = none) :
    ∀ (l : List (Fin 16)) (S : SMat), (l.foldl (rxBody j txp run) S) i j' f = S i j' f := by
  intro l
  induction l with
  | nil => intro S; rfl
  | cons a t ih =>
    intro S
    rw [List.foldl_cons, ih]
    by_cases hia : i = a
    · subst hia
      simp [rxBody, hrx]
    · cases hra : run a with
      | none => simp [rxBody, hra]
      | some rxp => simp [rxBody, hra, setEntry, hia]

theorem foldl_rxBody_write (j : Fin 16) (txp : Port) (run : Run) (i : Fin 16)
    (rxp : Port) (f : ℕ) (hrx : run i = some rxp) :
    ∀ (l : List (Fin 16)) (S : SMat), i ∈ l → l.Nodup →
      (l.foldl (rxBody j txp run) S) i j f = sValue txp rxp f := by
  intro l
  induction l with
  | nil => intro S h; cases h
  | cons a t ih =>
    intro S hmem hnd
    have hndt : t.Nodup := (List.nodup_cons.mp hnd).2
    by_cases hia : i = a
    · subst hia
      have hit : i ∉ t := (List.nodup_cons.mp hnd).1
      rw [List.foldl_cons, foldl_rxBody_row_frame j txp run i j f t _ hit]
      simp [rxBody, hrx, setEntry]
    · have hit : i ∈ t := by
        cases List.mem_cons.mp hmem with
        | inl h => exact absurd h hia
        | inr h => exact h
      rw [List.foldl_cons]
      exact ih _ hit hndt

theorem colStep_col_frame (S : SMat) (j : Fin 16) (txp : Port) (run : Run)
    (i j' : Fin 16) (f : ℕ) (hj : j' ≠ j) :
    colStep S j txp run i j' f = S i j' f :=
  foldl_rxBody_col_frame j txp run i j' f hj _ S

theorem colStep_write (S : SMat) (j : Fin 16) (txp : Port) (run : Run)
    (i : Fin 16) (rxp : Port) (f : ℕ) (hrx : run i = some rxp) :
    colStep S j txp run i j f = sValue txp rxp f :=
  foldl_rxBody_write j txp run i rxp f hrx _ S (List.mem_finRange i) (List.nodup_finRange 16)

theorem colStep_skip (S : SMat) (j : Fin 16) (txp : Port) (run : Run)
    (i j' : Fin 16) (f : ℕ) (hrx : run i = none) :
    colStep S j txp run i j' f = S i j' f :=
  foldl_rxBody_skip j txp run i j' f hrx _ S

theorem computeGo_warns (files : Files) :
    ∀ (l : List (Fin 16)) (acc : Option SMat) (ws : List (Fin 16))
      (out : Option SMat × List (Fin 16)),
      computeGo files l acc ws = .ok out →
      out.2 = ws ++ l.filter (fun j => (files j).isNone) := by
  intro l
  induction l with
  | nil =>
    intro acc ws out h
    simp only [computeGo] at h
    cases h
    simp
  | cons a t ih =>
    intro acc ws out h
    cases hfa : files a with
    | none =>
      simp only [computeGo, hfa] at h
      have := ih _ _ _ h
      simp [this, hfa, List.filter_cons]
    | some r =>
      cases r with
      | error e =>
        simp only [computeGo, hfa] at h
        cases h
      | ok run =>
        cases hra : run a with
        | none =>
          simp only [computeGo, hfa, hra] at h
          cases h
        | some txp =>
          simp only [computeGo, hfa, hra] at h
          have := ih _ _ _ h
          simp [this, hfa, List.filter_cons]

theorem computeGo_entry_notin (files : Files) (i j : Fin 16) (f : ℕ) :
    ∀ (l : List (Fin 16)) (acc : Option SMat) (ws : List (Fin 16))
      (out : Option SMat × List (Fin 16)),
      j ∉ l → computeGo files l acc ws = .ok out →
      (out.1.getD zeroS) i j f = (acc.getD zeroS) i j f := by
  intro l
  induction l with
  | nil =>
    intro acc ws out _ h
    simp only [computeGo] at h
    cases h
    rfl
  | cons a t ih =>
    intro acc ws out hmem h
    have hja : j ≠ a := fun hh => hmem (hh ▸ List.mem_cons_self a t)
    have hjt : j ∉ t := fun hh => hmem (List.mem_cons_of_mem a hh)
    cases hfa : files a with
    | none =>
      simp only [computeGo, hfa] at h
      exact ih _ _ _ hjt h
    | some r =>
      cases r with
      | error e =>
        simp only [computeGo, hfa] at h
        cases h
      | ok run =>
        cases hra : run a with
        | none =>
          simp only [computeGo, hfa, hra] at h
          cases h
        | some txp =>
          simp only [computeGo, hfa, hra] at h
          rw [ih _ _ _ hjt h]
          simp [colStep_col_frame _ _ _ _ _ _ _ hja]

theorem computeGo_entry_missing (files : Files) (i j : Fin 16) (f : ℕ)
    (hj : files j = none) :
    ∀ (l : List (Fin 16)) (acc : Option SMat) (ws : List (Fin 16))
      (out : Option SMat × List (Fin 16)),
      computeGo files l acc ws = .ok out →
      (out.1.getD zeroS) i j f = (acc.getD zeroS) i j f := by
  intro l
  induction l with
  | nil =>
    intro acc ws out h
    simp only [computeGo] at h
    cases h
    rfl
  | cons a t ih =>
    intro acc ws out h
    cases hfa : files a with
    | none =>
      simp only [computeGo, hfa] at h
      exact ih _ _ _ h
    | some r =>
      have hja : j ≠ a := by
        intro hh
        rw [hh, hfa] at hj
        cases hj
      cases r with
      | error e =>
        simp only [computeGo, hfa] at h
        cases h
      | ok run =>
        cases hra : run a with
        | none =>
          simp only [computeGo, hfa, hra] at h
          cases h
        | some txp =>
          simp only [computeGo, hfa, hra] at h
          rw [ih _ _ _ h]
          simp [colStep_col_frame _ _ _ _ _ _ _ hja]

theorem computeGo_entry_written (files : Files) (i j : Fin 16) (f : ℕ) (run : Run)
    (txp : Port) (hrun : files j = some (.ok run)) (htx : run j = some txp) :
    ∀ (l : List (Fin 16)) (acc : Option SMat) (ws : List (Fin 16))
      (out : Option SMat × List (Fin 16)),
      j ∈ l → l.Nodup → computeGo files l acc ws = .ok out →
      (out.1.getD zeroS) i j f =
        (match run i with
         | some rxp => sValue txp rxp f
         | none => (acc.getD zeroS) i j f) := by
  intro l
  induction l with
  | nil =>
    intro acc ws out hmem
    cases hmem
  | cons a t ih =>
    intro acc ws out hmem hnd h
    by_cases hja : j = a
    · subst hja
      simp only [computeGo, hrun, htx] at h
      have hjt : j ∉ t := (List.nodup_cons.mp hnd).1
      have hfin := computeGo_entry_notin files i j f t _ _ _ hjt h
      rw [hfin]
      simp only [Option.getD_some]
      cases hri : run i with
      | some rxp =>
        simp only [hri]
        exact colStep_write _ _ _ _ _ _ _ hri
      | none =>
        simp only [hri]
        exact colStep_skip _ _ _ _ _ _ _ hri
    · have hjt : j ∈ t := by
        cases List.mem_cons.mp hmem with
        | inl hh => exact absurd hh hja
        | inr hh => exact hh
      have hndt := (List.nodup_cons.mp hnd).2
      cases hfa : files a with
      | none =>
        simp only [computeGo, hfa] at h
        exact ih _ _ _ hjt hndt h
      | some r =>
        cases r with
        | error e =>
          simp only [computeGo, hfa] at h
          cases h
        | ok run' =>
          cases hra : run' a with
          | none =>
            simp only [computeGo, hfa, hra] at h
            cases h
          | some txp' =>
            simp only [computeGo, hfa, hra] at h
            rw [ih _ _ _ hjt hndt h]
            cases hri : run i with
            | some rxp => simp only [hri]
            | none =>
              simp only [hri, Option.getD_some]
              exact colStep_col_frame _ _ _ _ _ _ _ hja

theorem aWave_eq (p : Port) (f : ℕ) :
    aWave p f = Cx.toC (aNum p f) / ((2 : ℂ) * ((Real.sqrt Z0R : ℝ) : ℂ)) := by
  unfold aWave aNum
  rw [Cx.toC_add, Cx.toC_mul, Cx.toC_ofRat]
  norm_num [Z0, Z0R]

theorem bWave_eq (p : Port) (f : ℕ) :
    bWave p f = Cx.toC (bNum p f) / ((2 : ℂ) * ((Real.sqrt Z0R : ℝ) : ℂ)) := by
  unfold bWave bNum
  rw [Cx.toC_sub, Cx.toC_mul, Cx.toC_ofRat]
  norm_num [Z0, Z0R]

/-- The source's guard `np.abs(a_j) > 1e-30` is exactly the modelled
rational test `guardSq < abs2 (aNum)`. -/
theorem guard_iff (p : Port) (f : ℕ) :
    guardSq < (aNum p f).abs2 ↔ (1 / 10 ^ 30 : ℝ) < Complex.abs (aWave p f) := by
  have hs2 : Real.sqrt Z0R ^ 2 = 50 := Real.sq_sqrt (by norm_num [Z0R])
  have hspos : 0 < Real.sqrt Z0R := Real.sqrt_pos.mpr (by norm_num [Z0R])
  set s := Real.sqrt Z0R with hsdef
  set A := Complex.abs (Cx.toC (aNum p f)) with hAdef
  have hA : 0 ≤ A := Complex.abs.nonneg _
  have habs : Complex.abs (aWave p f) = A / (2 * s) := by
    rw [aWave_eq, map_div₀, map_mul, Complex.abs_two, Complex.abs_ofReal,
      abs_of_nonneg hspos.le]
  have hA2 : A ^ 2 = ((aNum p f).abs2 : ℝ) := by
    rw [hAdef, Complex.sq_abs, Cx.normSq_toC]
  have hcast : ((guardSq : ℚ) : ℝ) = 2 / 10 ^ 58 := by
    norm_num [guardSq]
  have h2s : (0 : ℝ) < 2 * s := by linarith
  have hc2 : (2 * s / 10 ^ 30) ^ 2 = (2 : ℝ) / 10 ^ 58 := by
    rw [div_pow, mul_pow, hs2]
    norm_num
  have hcpos : (0 : ℝ) < 2 * s / 10 ^ 30 := by positivity
  constructor
  · intro h
    have hQ : ((guardSq : ℚ) : ℝ) < (((aNum p f).abs2 : ℚ) : ℝ) := by exact_mod_cast h
    rw [hcast, ← hA2] at hQ
    have hsq : (2 * s / 10 ^ 30) ^ 2 < A ^ 2 := by rw [hc2]; exact hQ
    have hcA : 2 * s / 10 ^ 30 < A := lt_of_pow_lt_pow_left₀ 2 hA hsq
    rw [habs, lt_div_iff₀ h2s]
    calc (1 : ℝ) / 10 ^ 30 * (2 * s) = 2 * s / 10 ^ 30 := by ring
    _ < A := hcA
  · intro h
    rw [habs, lt_div_iff₀ h2s] at h
    have hcA : 2 * s / 10 ^ 30 < A := by
      calc 2 * s / 10 ^ 30 = 1 / 10 ^ 30 * (2 * s) := by ring
      _ < A := h
    have hsq : (2 * s / 10 ^ 30) ^ 2 < A ^ 2 := by
      exact pow_lt_pow_left₀ hcA hcpos.le (by norm_num)
    rw [hc2, ← hcast, hA2] at hsq
    exact_mod_cast hsq

/-- Under the guard, the stored value is exactly the wave-variable
ratio `b_i / a_j` over `ℂ`. -/
theorem toC_sValue (txp rxp : Port) (f : ℕ)
    (hg : (1 / 10 ^ 30 : ℝ) < Complex.abs (aWave txp f)) :
    Cx.toC (sValue txp rxp f) = bWave rxp f / aWave txp f := by
  have hguard := (guard_iff txp f).mpr hg
  have hspos : 0 < Real.sqrt Z0R := Real.sqrt_pos.mpr (by norm_num [Z0R])
  have hcne : ((2 : ℂ) * ((Real.sqrt Z0R : ℝ) : ℂ)) ≠ 0 :=
    mul_ne_zero two_ne_zero (Complex.ofReal_ne_zero.mpr (ne_of_gt hspos))
  rw [sValue, if_pos hguard, Cx.toC_div, aWave_eq, bWave_eq]
  rcases eq_or_ne (Cx.toC (aNum txp f)) 0 with hv | hv
  · simp [hv]
  · field_simp

/-- C2: for every transmit port j with voltage and current spectra, and
every receive port i present in that Run, whenever the incident-wave
magnitude clears the numerical guard (|a_j(f)| > 1e-30, otherwise C1's
saturation rule applies), the builder stores
`S[i][j](f) = b_i(f) / a_j(f)` with
`a_j = (V_j + Z0*I_j)/(2*sqrt Z0)` and `b_i = (V_i - Z0*I_i)/(2*sqrt Z0)`,
Z0 = 50 the fixed reference impedance. -/
theorem c2_wave_variable_formula (files : Files) (i j : Fin 16) (f : ℕ)
    (run : Run) (txp rxp : Port)
    (hrun : files j = some (.ok run)) (htx : run j = some txp)
    (hrx : run i = some rxp)
    (hok : okB (compute_s_matrix files) = true)
    (hg : (1 / 10 ^ 30 : ℝ) < Complex.abs (aWave txp f)) :
    Cx.toC (entryAt (compute_s_matrix files) i j f) = bWave rxp f / aWave txp f := by
  cases hc : compute_s_matrix files with
  | error e =>
    rw [hc] at hok
    simp [okB] at hok
  | ok out =>
    obtain ⟨acc, ws⟩ := out
    unfold compute_s_matrix at hc
    have hw := computeGo_entry_written files i j f run txp hrun htx
      (List.finRange 16) none [] (acc, ws) (List.mem_finRange j) (List.nodup_finRange 16) hc
    simp only [hrx] at hw
    have hw' : (acc.getD zeroS) i j f = sValue txp rxp f := hw
    show Cx.toC ((acc.getD zeroS) i j f) = _
    rw [hw']
    exact toC_sValue txp rxp f hg

/-- Concrete fixture: every transmission line present, spectra V ≡ 1,
I ≡ 0. -/
def wPort : Port := ⟨fun _ => ⟨1, 0⟩, fun _ => 0⟩

/-- Concrete fixture: all sixteen files present and readable. -/
def wFiles : Files := fun _ => some (.ok (fun _ => some wPort))

/-- C2 witness: concrete evaluation of the wave-variable formula with
V ≡ 1, I ≡ 0 on every port of every run. -/
theorem c2_wave_variable_formula_witness :
    (wFiles 0 = some (.ok (fun _ => some wPort)) ∧
     okB (compute_s_matrix wFiles) = true ∧
     (1 / 10 ^ 30 : ℝ) < Complex.abs (aWave wPort 0)) ∧
    Cx.toC (entryAt (compute_s_matrix wFiles) 0 0 0) = bWave wPort 0 / aWave wPort 0 := by
  have hspos : 0 < Real.sqrt Z0R := Real.sqrt_pos.mpr (by norm_num [Z0R])
  have hs2 : Real.sqrt Z0R ^ 2 = 50 := Real.sq_sqrt (by norm_num [Z0R])
  have hsle : Real.sqrt Z0R ≤ 8 := by nlinarith [Real.sqrt_nonneg Z0R]
  have hnum : Cx.toC (wPort.V 0) + (Z0R : ℂ) * Cx.toC (wPort.I 0) = 1 := by
    show Cx.toC ⟨1, 0⟩ + (Z0R : ℂ) * Cx.toC 0 = 1
    rw [Cx.toC_zero]
    apply Complex.ext <;> simp [Cx.toC]
  have haw : aWave wPort 0 = 1 / ((2 : ℂ) * ((Real.sqrt Z0R : ℝ) : ℂ)) := by
    rw [aWave, hnum]
  have habs : Complex.abs (aWave wPort 0) = 1 / (2 * Real.sqrt Z0R) := by
    rw [haw, map_div₀, map_one, map_mul, Complex.abs_two, Complex.abs_ofReal,
      abs_of_nonneg hspos.le]
  have hg : (1 / 10 ^ 30 : ℝ) < Complex.abs (aWave wPort 0) := by
    rw [habs]
    rw [div_lt_div_iff₀ (by norm_num) (by linarith)]
    nlinarith
  exact ⟨⟨rfl, rfl, hg⟩,
    c2_wave_variable_formula wFiles 0 0 0 (fun _ => some wPort) wPort wPort
      rfl rfl rfl rfl hg⟩

end ExtractSP

namespace GenS16

/-!
Model of `generate_s16p.py`'s `calculate_s_matrix_column`
(lines 176-197): the FFT'd receiver fields `E_freq` are divided by the
"safe" incident spectrum,
`V_incident_safe = np.where(np.abs(V_incident) < 1e-20, 1e-20, V_incident)`,
with `V_incident = E_freq[source_idx]`.
-/

/-- Floor constant `1e-20` (line 191). -/
def floorC : ℚ := 1 / 10 ^ 20

/-- `np.where(np.abs(V_incident) < 1e-20, 1e-20, V_incident)` (line 191);
the magnitude test is taken squared (`|v| < 1e-20 ⟺ abs2 v < (1e-20)^2`). -/
def vSafe (v : Cx) : Cx := if v.abs2 < floorC ^ 2 then Cx.ofRat floorC else v

/-- Entry (receiver `i`, frequency bin `f`) of
`S_column = E_freq / V_incident_safe` (line 195). -/
def sColumnEntry (E : Fin 16 → ℕ → Cx) (src i : Fin 16) (f : ℕ) : Cx :=
  (E i f).div (vSafe (E src f))

end GenS16

/-- Concrete receiver fields for the C1 counterexample: the incident
spectrum (source port 0) is identically zero, every other receiver
sees field 1. -/
def exE : Fin 16 → ℕ → Cx := fun i _ => if i = 0 then 0 else ⟨1, 0⟩

/-- C1 counterexample: in `generate_s16p.calculate_s_matrix_column`, a
denominator bin of magnitude exactly 0 (incident spectrum `E_src ≡ 0`)
does not give S = 0: with receiver field 1 the stored value is `1e20`. -/
theorem c1_division_guard_counterexample :
    exE 0 0 = 0 ∧ GenS16.sColumnEntry exE 0 1 0 = Cx.ofRat (10 ^ 20) := by
  have h1 : exE 1 0 = (⟨1, 0⟩ : Cx) := if_neg (by decide)
  have h0 : exE 0 0 = (0 : Cx) := if_pos rfl
  refine ⟨h0, ?_⟩
  show Cx.div (exE 1 0) (GenS16.vSafe (exE 0 0)) = Cx.ofRat (10 ^ 20)
  rw [h1, h0, GenS16.vSafe,
    if_pos (show (0 : Cx).abs2 < GenS16.floorC ^ 2 by norm_num [Cx.abs2, GenS16.floorC])]
  show Cx.div ⟨1, 0⟩ (Cx.ofRat GenS16.floorC) = (⟨(10 : ℚ) ^ 20, 0⟩ : Cx)
  rw [Cx.div, Cx.mk.injEq]
  constructor <;> norm_num [Cx.abs2, Cx.ofRat, GenS16.floorC]

/-- C1 (amended): the two builders guard differently.  In
`extract_sparameters.compute_s_matrix` an incident wave at or below the
1e-30 floor — in particular of magnitude exactly 0 — stores exactly 0.
In `generate_s16p.calculate_s_matrix_column` a denominator bin of
magnitude below 1e-20 is instead replaced by the constant `1e-20`, so
the stored value is `numerator / 1e-20`: finite, but nonzero (not 0)
whenever the receiver field at that bin is nonzero. -/
theorem c1_division_guard_amended (files : ExtractSP.Files) (i j : Fin 16) (f : ℕ)
    (run : ExtractSP.Run) (txp rxp : ExtractSP.Port)
    (hrun : files j = some (.ok run)) (htx : run j = some txp)
    (hrx : run i = some rxp)
    (hok : ExtractSP.okB (ExtractSP.compute_s_matrix files) = true)
    (hsmall : Complex.abs (ExtractSP.aWave txp f) ≤ 1 / 10 ^ 30) :
    ExtractSP.entryAt (ExtractSP.compute_s_matrix files) i j f = 0 ∧
    (∀ (E : Fin 16 → ℕ → Cx) (src i' : Fin 16) (f' : ℕ), E src f' = 0 →
      GenS16.sColumnEntry E src i' f' = (E i' f').div (Cx.ofRat GenS16.floorC)) := by
  constructor
  · have hng : ¬ ExtractSP.guardSq < (ExtractSP.aNum txp f).abs2 := fun hgt =>
      absurd ((ExtractSP.guard_iff txp f).mp hgt) (not_lt.mpr hsmall)
    cases hc : ExtractSP.compute_s_matrix files with
    | error e =>
      rw [hc] at hok
      simp [ExtractSP.okB] at hok
    | ok out =>
      obtain ⟨acc, ws⟩ := out
      unfold ExtractSP.compute_s_matrix at hc
      have hw := ExtractSP.computeGo_entry_written files i j f run txp hrun htx
        (List.finRange 16) none [] (acc, ws) (List.mem_finRange j)
        (List.nodup_finRange 16) hc
      simp only [hrx] at hw
      have hw' : (acc.getD ExtractSP.zeroS) i j f = ExtractSP.sValue txp rxp f := hw
      show (acc.getD ExtractSP.zeroS) i j f = 0
      rw [hw', ExtractSP.sValue, if_neg hng]
  · intro E src i' f' hE
    rw [GenS16.sColumnEntry, hE, GenS16.vSafe, if_pos]
    show (0 : Cx).abs2 < GenS16.floorC ^ 2
    norm_num [Cx.abs2, GenS16.floorC]

/-- Concrete fixture for the C1 witness: identically-zero port spectra. -/
def zPort : ExtractSP.Port := ⟨fun _ => 0, fun _ => 0⟩

/-- Concrete fixture for the C1 witness: all sixteen files readable,
every port `zPort`. -/
def zFiles : ExtractSP.Files := fun _ => some (.ok (fun _ => some zPort))

/-- C1 witness: concrete evaluation with identically-zero port spectra,
whose incident wave has magnitude exactly 0. -/
theorem c1_division_guard_witness :
    (ExtractSP.okB (ExtractSP.compute_s_matrix zFiles) = true ∧
     Complex.abs (ExtractSP.aWave zPort 0) ≤ 1 / 10 ^ 30) ∧
    ExtractSP.entryAt (ExtractSP.compute_s_matrix zFiles) 0 0 0 = 0 := by
  have hsmall : Complex.abs (ExtractSP.aWave zPort 0) ≤ 1 / 10 ^ 30 := by
    have hz : ExtractSP.aWave zPort 0 = 0 := by
      rw [ExtractSP.aWave]
      show (Cx.toC 0 + _ * Cx.toC 0) / _ = 0
      rw [Cx.toC_zero]
      simp
    rw [hz]
    norm_num
  exact ⟨⟨rfl, hsmall⟩,
    (c1_division_guard_amended zFiles 0 0 0 (fun _ => some zPort)
      zPort zPort rfl rfl rfl rfl hsmall).1⟩

namespace PortSP

/-!
Model of `extract_port_sparameters.py`'s
`extract_s_matrix_from_monopole_simulations` (lines 87-176).  For the
file of transmit port `tx`: the diagonal entry comes from
`compute_port_sparameters` (lines 66-85), off-diagonal entries from
`V_rx / (V_incident + 1e-20)` (line 171) with `V_incident = V_tx`
(line 144).  Every write targets `S_matrix[tx_idx, rx_port-1, :]`
(lines 162 and 172) — row `tx_idx`, not a column.
-/

abbrev Port := ExtractSP.Port

abbrev Run := ExtractSP.Run

abbrev SMat := ExtractSP.SMat

/-- Floor constant `1e-20` (lines 80 and 171). -/
def eps : ℚ := 1 / 10 ^ 20

/-- `compute_port_sparameters` (lines 66-85): impedance
`Z_port = V/(I + 1e-20)`, reflection `S11 = (Z-Z0)/(Z+Z0)`, Z0 = 50. -/
def s11 (p : Port) (f : ℕ) : Cx :=
  ((p.V f).div (p.I f + Cx.ofRat eps) - Cx.ofRat 50).div
    ((p.V f).div (p.I f + Cx.ofRat eps) + Cx.ofRat 50)

/-- Transmission entry `S_ij = V_rx / (V_incident + 1e-20)` (line 171). -/
def sTrans (rxp txp : Port) (f : ℕ) : Cx :=
  (rxp.V f).div (txp.V f + Cx.ofRat eps)

/-- Result of processing one transmit file: matrix, the receive ports
warned about (`Warning: RX port .. not found, skipping`, line 149), and
whether the transmit port itself was missing (`Error: TX port .. not
found`, line 132). -/
structure MonoOut where
  S : SMat
  rxWarn : List (Fin 16)
  txErr : Bool

/-- Body of the receive loop (lines 147-172). -/
def monoRxBody (txIdx : Fin 16) (txp : Port) (ports : Run)
    (acc : SMat × List (Fin 16)) (r : Fin 16) : SMat × List (Fin 16) :=
  match ports r with
  | none => (acc.1, acc.2 ++ [r])
  | some rxp =>
    if r = txIdx then
      (ExtractSP.setEntry acc.1 txIdx r (s11 rxp), acc.2)
    else
      (ExtractSP.setEntry acc.1 txIdx r (sTrans rxp txp), acc.2)

/-- Processing of one transmit file (lines 112-174). -/
def monoStep (S : SMat) (txIdx : Fin 16) (ports : Run) : MonoOut :=
  match ports txIdx with
  | none => ⟨S, [], true⟩
  | some txp =>
    ⟨((List.finRange 16).foldl (monoRxBody txIdx txp ports) (S, [])).1,
     ((List.finRange 16).foldl (monoRxBody txIdx txp ports) (S, [])).2, false⟩

theorem monoRx_warn_pres (txIdx : Fin 16) (txp : Port) (ports : Run) (x : Fin 16) :
    ∀ (l : List (Fin 16)) (acc : SMat × List (Fin 16)), x ∈ acc.2 →
      x ∈ (l.foldl (monoRxBody txIdx txp ports) acc).2 := by
  intro l
  induction l with
  | nil => intro acc h; exact h
  | cons a t ih =>
    intro acc h
    rw [List.foldl_cons]
    apply ih
    cases hpa : ports a with
    | none =>
      simp only [monoRxBody, hpa]
      exact List.mem_append_left _ h
    | some rxp =>
      simp only [monoRxBody, hpa]
      split <;> exact h

theorem monoRx_warn_mem (txIdx : Fin 16) (txp : Port) (ports : Run) (r : Fin 16)
    (hr : ports r = none) :
    ∀ (l : List (Fin 16)) (acc : SMat × List (Fin 16)), r ∈ l →
      r ∈ (l.foldl (monoRxBody txIdx txp ports) acc).2 := by
  intro l
  induction l with
  | nil => intro acc h; cases h
  | cons a t ih =>
    intro acc hmem
    rw [List.foldl_cons]
    by_cases har : a = r
    · subst har
      apply monoRx_warn_pres
      simp only [monoRxBody, hr]
      exact List.mem_append_right _ (List.mem_singleton.mpr rfl)
    · have hrt : r ∈ t := by
        cases List.mem_cons.mp hmem with
        | inl hh => exact absurd hh.symm har
        | inr hh => exact hh
      exact ih _ hrt

theorem monoRx_row_frame (txIdx : Fin 16) (txp : Port) (ports : Run) (i' j' : Fin 16)
    (f : ℕ) (h : i' ≠ txIdx) :
    ∀ (l : List (Fin 16)) (acc : SMat × List (Fin 16)),
      ((l.foldl (monoRxBody txIdx txp ports) acc).1) i' j' f = acc.1 i' j' f := by
  intro l
  induction l with
  | nil => intro acc; rfl
  | cons a t ih =>
    intro acc
    rw [List.foldl_cons, ih]
    cases hpa : ports a with
    | none => simp [monoRxBody, hpa]
    | some rxp =>
      simp only [monoRxBody, hpa]
      split <;> simp [ExtractSP.setEntry, h]

theorem monoRx_col_notmem (txIdx : Fin 16) (txp : Port) (ports : Run) (i' j' : Fin 16)
    (f : ℕ) :
    ∀ (l : List (Fin 16)) (acc : SMat × List (Fin 16)), j' ∉ l →
      ((l.foldl (monoRxBody txIdx txp ports) acc).1) i' j' f = acc.1 i' j' f := by
  intro l
  induction l with
  | nil => intro acc _; rfl
  | cons a t ih =>
    intro acc hmem
    have hja : j' ≠ a := fun h => hmem (h ▸ List.mem_cons_self a t)
    have hjt : j' ∉ t := fun h => hmem (List.mem_cons_of_mem a h)
    rw [List.foldl_cons, ih _ hjt]
    cases hpa : ports a with
    | none => simp [monoRxBody, hpa]
    | some rxp =>
      simp only [monoRxBody, hpa]
      split <;> simp [ExtractSP.setEntry, hja]

theorem monoRx_write_trans (txIdx : Fin 16) (txp : Port) (ports : Run) (r : Fin 16)
    (rxp : Port) (f : ℕ) (hr : ports r = some rxp) (hrt : r ≠ txIdx) :
    ∀ (l : List (Fin 16)) (acc : SMat × List (Fin 16)), r ∈ l → l.Nodup →
      ((l.foldl (monoRxBody txIdx txp ports) acc).1) txIdx r f = sTrans rxp txp f := by
  intro l
  induction l with
  | nil => intro acc h; cases h
  | cons a t ih =>
    intro acc hmem hnd
    by_cases har : a = r
    · subst har
      have hat : a ∉ t := (List.nodup_cons.mp hnd).1
      rw [List.foldl_cons, monoRx_col_notmem txIdx txp ports txIdx a f t _ hat]
      simp only [monoRxBody, hr]
      rw [if_neg hrt]
      simp [ExtractSP.setEntry]
    · have hrt' : r ∈ t := by
        cases List.mem_cons.mp hmem with
        | inl hh => exact absurd hh.symm har
        | inr hh => exact hh
      rw [List.foldl_cons]
      exact ih _ hrt' (List.nodup_cons.mp hnd).2

theorem monoStep_row_frame (S : SMat) (txIdx : Fin 16) (ports : Run) (i' j' : Fin 16)
    (f : ℕ) (h : i' ≠ txIdx) :
    (monoStep S txIdx ports).S i' j' f = S i' j' f := by
  cases hp : ports txIdx with
  | none => simp [monoStep, hp]
  | some txp =>
    simp only [monoStep, hp]
    exact monoRx_row_frame txIdx txp ports i' j' f h _ _

theorem monoStep_write_trans (S : SMat) (txIdx : Fin 16) (ports : Run) (r : Fin 16)
    (txp rxp : Port) (f : ℕ) (htx : ports txIdx = some txp) (hr : ports r = some rxp)
    (hrt : r ≠ txIdx) :
    (monoStep S txIdx ports).S txIdx r f = sTrans rxp txp f := by
  simp only [monoStep, htx]
  exact monoRx_write_trans txIdx txp ports r rxp f hr hrt _ _
    (List.mem_finRange r) (List.nodup_finRange 16)

theorem monoStep_warns (S : SMat) (txIdx r : Fin 16) (ports : Run) (txp : Port)
    (htx : ports txIdx = some txp) (hr : ports r = none) :
    r ∈ (monoStep S txIdx ports).rxWarn := by
  simp only [monoStep, htx]
  exact monoRx_warn_mem txIdx txp ports r hr _ _ (List.mem_finRange r)

end PortSP

/-- C5 (amended): in `extract_sparameters.compute_s_matrix`, processing
Run j writes only column j — entries of every other column are
unchanged, and each receive port present in the Run gets the guarded
wave ratio in column j.  In
`extract_port_sparameters.extract_s_matrix_from_monopole_simulations`,
however, processing Run j writes only ROW j (`S_matrix[tx_idx, rx-1]`),
leaving other rows — not other columns — unchanged. -/
theorem c5_column_assembly_amended :
    (∀ (S : ExtractSP.SMat) (j : Fin 16) (txp : ExtractSP.Port)
       (run : ExtractSP.Run) (i j' : Fin 16) (f : ℕ), j' ≠ j →
       ExtractSP.colStep S j txp run i j' f = S i j' f) ∧
    (∀ (S : ExtractSP.SMat) (j : Fin 16) (txp : ExtractSP.Port)
       (run : ExtractSP.Run) (i : Fin 16) (rxp : ExtractSP.Port) (f : ℕ),
       run i = some rxp →
       ExtractSP.colStep S j txp run i j f = ExtractSP.sValue txp rxp f) ∧
    (∀ (S : PortSP.SMat) (txIdx : Fin 16) (ports : PortSP.Run) (i' j' : Fin 16)
       (f : ℕ), i' ≠ txIdx →
       (PortSP.monoStep S txIdx ports).S i' j' f = S i' j' f) := by
  refine ⟨?_, ?_, ?_⟩
  · intro S j txp run i j' f hj
    exact ExtractSP.colStep_col_frame S j txp run i j' f hj
  · intro S j txp run i rxp f hrx
    exact ExtractSP.colStep_write S j txp run i rxp f hrx
  · intro S txIdx ports i' j' f h
    exact PortSP.monoStep_row_frame S txIdx ports i' j' f h

/-- C5 counterexample: in `extract_port_sparameters`, processing the
Run of transmit port 1 (index 0) starting from the zero matrix changes
the entry at row 0, column 1 — an entry of ANOTHER column (column 2) —
so "leaves every entry of every other column unchanged" fails there. -/
theorem c5_column_assembly_counterexample :
    (PortSP.monoStep ExtractSP.zeroS 0 (fun _ => some ExtractSP.wPort)).S 0 1 0 ≠
      ExtractSP.zeroS 0 1 0 := by
  rw [PortSP.monoStep_write_trans ExtractSP.zeroS 0 (fun _ => some ExtractSP.wPort) 1
    ExtractSP.wPort ExtractSP.wPort 0 rfl rfl (by decide)]
  intro hcontra
  have hre : (PortSP.sTrans ExtractSP.wPort ExtractSP.wPort 0).re = 0 :=
    congrArg Cx.re hcontra
  rw [PortSP.sTrans, Cx.div] at hre
  norm_num [Cx.abs2, Cx.ofRat, ExtractSP.wPort, PortSP.eps] at hre

/-- C5 witness: concrete instances of the three amended statements. -/
theorem c5_column_assembly_witness :
    ((1 : Fin 16) ≠ 0 ∧
     (fun (_ : Fin 16) => some ExtractSP.wPort) (0 : Fin 16) = some ExtractSP.wPort) ∧
    ExtractSP.colStep ExtractSP.zeroS 0 ExtractSP.wPort (fun _ => some ExtractSP.wPort)
      0 1 0 = ExtractSP.zeroS 0 1 0 ∧
    ExtractSP.colStep ExtractSP.zeroS 0 ExtractSP.wPort (fun _ => some ExtractSP.wPort)
      0 0 0 = ExtractSP.sValue ExtractSP.wPort ExtractSP.wPort 0 ∧
    (PortSP.monoStep ExtractSP.zeroS 0 (fun _ => some ExtractSP.wPort)).S 1 0 0 =
      ExtractSP.zeroS 1 0 0 :=
  ⟨⟨by decide, rfl⟩,
   c5_column_assembly_amended.1 ExtractSP.zeroS 0 ExtractSP.wPort
     (fun _ => some ExtractSP.wPort) 0 1 0 (by decide),
   c5_column_assembly_amended.2.1 ExtractSP.zeroS 0 ExtractSP.wPort
     (fun _ => some ExtractSP.wPort) 0 ExtractSP.wPort 0 rfl,
   c5_column_assembly_amended.2.2 ExtractSP.zeroS 0 (fun _ => some ExtractSP.wPort)
     1 0 0 (by decide)⟩

/-- Run map for the C6 counterexample: Run 0 is missing receive port 1;
every other port of every run is present. -/
def exRun6 (j : Fin 16) : ExtractSP.Run :=
  fun r => if j = 0 ∧ r = 1 then none else some ExtractSP.wPort

/-- File map for the C6 counterexample: all sixteen files present and
readable. -/
def exFiles6 : ExtractSP.Files := fun j => some (.ok (exRun6 j))

/-- C6 counterexample: receive port 1 is declared but absent from Run 0;
`compute_s_matrix` succeeds, reports NO warning at all (the warning list
is empty), and leaves the entry S[1][0] at its zero default — i.e. the
port is silently zero-filled without a report. -/
theorem c6_absent_rx_port_counterexample :
    exRun6 0 1 = none ∧
    exFiles6 0 = some (.ok (exRun6 0)) ∧
    ExtractSP.okB (ExtractSP.compute_s_matrix exFiles6) = true ∧
    ExtractSP.warnsAt (ExtractSP.compute_s_matrix exFiles6) = [] ∧
    ExtractSP.entryAt (ExtractSP.compute_s_matrix exFiles6) 1 0 0 = 0 := by
  refine ⟨rfl, rfl, rfl, rfl, ?_⟩
  cases hc : ExtractSP.compute_s_matrix exFiles6 with
  | error e =>
    have : ExtractSP.okB (ExtractSP.compute_s_matrix exFiles6) = true := rfl
    rw [hc] at this
    simp [ExtractSP.okB] at this
  | ok out =>
    obtain ⟨acc, ws⟩ := out
    unfold ExtractSP.compute_s_matrix at hc
    have hw := ExtractSP.computeGo_entry_written exFiles6 1 0 0 (exRun6 0)
      ExtractSP.wPort rfl rfl (List.finRange 16) none [] (acc, ws)
      (List.mem_finRange 0) (List.nodup_finRange 16) hc
    have hnone : exRun6 0 1 = none := rfl
    simp only [hnone] at hw
    exact hw

/-- C6 (amended): a Run missing a declared receive port is handled
differently by the two builders.  In `extract_sparameters.
compute_s_matrix` the port is skipped SILENTLY: the warning list of a
successful computation is exactly the list of missing files (no
receive-port warnings exist), and the skipped entry stays at the zero
default.  In `extract_port_sparameters` the absent receive port IS
warned about. -/
theorem c6_absent_rx_port_amended :
    (∀ (files : ExtractSP.Files),
       ExtractSP.okB (ExtractSP.compute_s_matrix files) = true →
       ExtractSP.warnsAt (ExtractSP.compute_s_matrix files) =
         (List.finRange 16).filter (fun j => (files j).isNone)) ∧
    (∀ (files : ExtractSP.Files) (i j : Fin 16) (f : ℕ) (run : ExtractSP.Run)
       (txp : ExtractSP.Port), files j = some (.ok run) → run j = some txp →
       run i = none → ExtractSP.okB (ExtractSP.compute_s_matrix files) = true →
       ExtractSP.entryAt (ExtractSP.compute_s_matrix files) i j f = 0) ∧
    (∀ (S : PortSP.SMat) (txIdx r : Fin 16) (ports : PortSP.Run)
       (txp : PortSP.Port), ports txIdx = some txp → ports r = none →
       r ∈ (PortSP.monoStep S txIdx ports).rxWarn) := by
  refine ⟨?_, ?_, ?_⟩
  · intro files hok
    cases hc : ExtractSP.compute_s_matrix files with
    | error e =>
      rw [hc] at hok
      simp [ExtractSP.okB] at hok
    | ok out =>
      obtain ⟨acc, ws⟩ := out
      unfold ExtractSP.compute_s_matrix at hc
      have hws := ExtractSP.computeGo_warns files (List.finRange 16) none [] (acc, ws) hc
      show ws = _
      rw [show ((acc, ws).2) = ws from rfl] at hws
      rw [hws, List.nil_append]
  · intro files i j f run txp hrun htx hrx hok
    cases hc : ExtractSP.compute_s_matrix files with
    | error e =>
      rw [hc] at hok
      simp [ExtractSP.okB] at hok
    | ok out =>
      obtain ⟨acc, ws⟩ := out
      unfold ExtractSP.compute_s_matrix at hc
      have hw := ExtractSP.computeGo_entry_written files i j f run txp hrun htx
        (List.finRange 16) none [] (acc, ws) (List.mem_finRange j)
        (List.nodup_finRange 16) hc
      simp only [hrx] at hw
      exact hw
  · intro S txIdx r ports txp htx hr
    exact PortSP.monoStep_warns S txIdx r ports txp htx hr

/-- C6 witness: concrete instances — the all-present fixture yields an
empty warning list; the fixture missing receive port 1 in Run 0 leaves
S[1][0] at zero; and the port-script warns about the missing port. -/
theorem c6_absent_rx_port_witness :
    (ExtractSP.okB (ExtractSP.compute_s_matrix ExtractSP.wFiles) = true ∧
     exFiles6 0 = some (.ok (exRun6 0)) ∧ exRun6 0 0 = some ExtractSP.wPort ∧
     exRun6 0 1 = none) ∧
    ExtractSP.warnsAt (ExtractSP.compute_s_matrix ExtractSP.wFiles) =
      (List.finRange 16).filter (fun j => (ExtractSP.wFiles j).isNone) ∧
    ExtractSP.entryAt (ExtractSP.compute_s_matrix exFiles6) 1 0 0 = 0 ∧
    (1 : Fin 16) ∈ (PortSP.monoStep ExtractSP.zeroS 0 (exRun6 0)).rxWarn :=
  ⟨⟨rfl, rfl, rfl, rfl⟩,
   c6_absent_rx_port_amended.1 ExtractSP.wFiles rfl,
   c6_absent_rx_port_amended.2.1 exFiles6 1 0 0 (exRun6 0) ExtractSP.wPort
     rfl rfl rfl rfl,
   c6_absent_rx_port_amended.2.2 ExtractSP.zeroS 0 1 (exRun6 0) ExtractSP.wPort
     rfl rfl⟩

namespace ExtractSP

/-- Outcome of `process_scenario`: its return value, whether
`write_s16p` completed, and whether the 16 `.out` files were deleted. -/
structure POut where
  ok : Bool
  wrote : Bool
  deleted : Bool

/-- Environment of one `process_scenario` call: the input directory
(`files`, as consumed by `compute_s_matrix`) and whether `write_s16p`
completes without raising (lines 215-219). -/
structure PEnv where
  files : Files
  writeOk : Bool

/-- `process_scenario` (lines 187-227): check that all 16 `.out` files
exist — otherwise print SKIP and return False (lines 192-200); compute
the S-matrix, catching any exception as False (lines 202-207); treat
`S is None` as False (lines 209-211); write the `.s16p`, catching any
exception as False (lines 213-219); only after a successful write
delete the 16 `.out` files (`DELETE_OUT = True`, lines 221-225) and
return True. -/
def process_scenario (env : PEnv) : POut :=
  if (List.finRange 16).any (fun j => (env.files j).isNone) then ⟨false, false, false⟩
  else
    match compute_s_matrix env.files with
    | .error _ => ⟨false, false, false⟩
    | .ok (none, _) => ⟨false, false, false⟩
    | .ok (some _, _) =>
      if env.writeOk then ⟨true, true, true⟩ else ⟨false, false, false⟩

end ExtractSP

/-- C10: the per-scenario pipeline deletes the sixteen input `.out`
files only after the `.s16p` file has been successfully written; on any
failure while reading the containers, computing the S-matrix, or
writing the output, it returns failure before the deletion step, so no
`.out` file is removed. -/
theorem c10_delete_only_after_write (env : ExtractSP.PEnv) :
    ((ExtractSP.process_scenario env).deleted = true →
      (ExtractSP.process_scenario env).wrote = true ∧
      (ExtractSP.process_scenario env).ok = true) ∧
    ((ExtractSP.process_scenario env).ok = false →
      (ExtractSP.process_scenario env).deleted = false) := by
  cases h1 : (List.finRange 16).any (fun j => (env.files j).isNone) with
  | true => simp [ExtractSP.process_scenario, h1]
  | false =>
    cases h2 : ExtractSP.compute_s_matrix env.files with
    | error e => simp [ExtractSP.process_scenario, h1, h2]
    | ok out =>
      obtain ⟨acc, ws⟩ := out
      cases acc with
      | none => simp [ExtractSP.process_scenario, h1, h2]
      | some S =>
        cases h3 : env.writeOk with
        | true => simp [ExtractSP.process_scenario, h1, h2, h3]
        | false => simp [ExtractSP.process_scenario, h1, h2, h3]

/-- Fixture: all sixteen files present and readable, write succeeds. -/
def goodEnv : ExtractSP.PEnv := ⟨ExtractSP.wFiles, true⟩

/-- C10 witness: in the all-good environment the files do get deleted,
and by the theorem the write must have completed. -/
theorem c10_delete_only_after_write_witness :
    (ExtractSP.process_scenario goodEnv).deleted = true ∧
    (ExtractSP.process_scenario goodEnv).wrote = true ∧
    (ExtractSP.process_scenario goodEnv).ok = true := by
  have hd : (ExtractSP.process_scenario goodEnv).deleted = true := rfl
  exact ⟨hd, (c10_delete_only_after_write goodEnv).1 hd⟩

/-- Fixture: the `.out` file of transmit port 1 is absent, everything
else is fine. -/
def missFiles : ExtractSP.Files :=
  fun j => if j = 0 then none else some (.ok (fun _ => some ExtractSP.wPort))

/-- Fixture: environment with one missing file and a working writer. -/
def missEnv : ExtractSP.PEnv := ⟨missFiles, true⟩

/-- C4 counterexample: with one of the sixteen `.out` files missing the
driver `process_scenario` returns False and serializes NOTHING — the
partial matrix is not written (contradicting "still serializes the
partial matrix"). -/
theorem c4_incomplete_runs_counterexample :
    missEnv.files 0 = none ∧
    (ExtractSP.process_scenario missEnv).ok = false ∧
    (ExtractSP.process_scenario missEnv).wrote = false :=
  ⟨rfl, rfl, rfl⟩

/-- C4 (amended): when fewer than 16 `.out` files exist the driver
`process_scenario` does not build or serialize anything: it prints a
SKIP message and returns False, with nothing written and nothing
deleted.  Only inside `compute_s_matrix` (when invoked on such a
directory) does a missing Run leave its column at the zero-initialized
default and append a missing-file warning. -/
theorem c4_incomplete_runs_amended :
    (∀ (env : ExtractSP.PEnv) (j : Fin 16), env.files j = none →
       (ExtractSP.process_scenario env).ok = false ∧
       (ExtractSP.process_scenario env).wrote = false ∧
       (ExtractSP.process_scenario env).deleted = false) ∧
    (∀ (files : ExtractSP.Files) (i j : Fin 16) (f : ℕ), files j = none →
       ExtractSP.okB (ExtractSP.compute_s_matrix files) = true →
       ExtractSP.entryAt (ExtractSP.compute_s_matrix files) i j f = 0 ∧
       j ∈ ExtractSP.warnsAt (ExtractSP.compute_s_matrix files)) := by
  constructor
  · intro env j hj
    have hany : (List.finRange 16).any (fun j => (env.files j).isNone) = true :=
      List.any_eq_true.mpr ⟨j, List.mem_finRange j, by simp [hj]⟩
    simp [ExtractSP.process_scenario, hany]
  · intro files i j f hj hok
    cases hc : ExtractSP.compute_s_matrix files with
    | error e =>
      rw [hc] at hok
      simp [ExtractSP.okB] at hok
    | ok out =>
      obtain ⟨acc, ws⟩ := out
      unfold ExtractSP.compute_s_matrix at hc
      constructor
      · have he := ExtractSP.computeGo_entry_missing files i j f hj
          (List.finRange 16) none [] (acc, ws) hc
        exact he
      · have hws := ExtractSP.computeGo_warns files (List.finRange 16) none [] (acc, ws) hc
        show j ∈ ws
        rw [show ((acc, ws).2) = ws from rfl] at hws
        rw [hws, List.nil_append]
        exact List.mem_filter.mpr ⟨List.mem_finRange j, by simp [hj]⟩

/-- C4 witness: concrete instances — the missing-file environment is
skipped unserialized, while a direct `compute_s_matrix` call on the
same directory leaves column 1 zeroed and warns about it. -/
theorem c4_incomplete_runs_witness :
    (missEnv.files 0 = none ∧ missFiles 0 = none ∧
     ExtractSP.okB (ExtractSP.compute_s_matrix missFiles) = true) ∧
    (ExtractSP.process_scenario missEnv).wrote = false ∧
    ExtractSP.entryAt (ExtractSP.compute_s_matrix missFiles) 1 0 0 = 0 ∧
    (0 : Fin 16) ∈ ExtractSP.warnsAt (ExtractSP.compute_s_matrix missFiles) :=
  ⟨⟨rfl, rfl, rfl⟩,
   (c4_incomplete_runs_amended.1 missEnv 0 rfl).2.1,
   (c4_incomplete_runs_amended.2 missFiles 1 0 0 rfl rfl).1,
   (c4_incomplete_runs_amended.2 missFiles 1 0 0 rfl rfl).2⟩


namespace Fmt

/-!
Exact-arithmetic model of the C-style decimal formatting used by the
Touchstone writers: `%.8e` denotes the input rounded to 9 significant
decimal digits, `%.6f` rounded to 6 decimal places.  The model rounds
the exact rational value (the source rounds the nearest binary double,
which differs from the exact value by far less than the 1e-6 tolerances
at issue).
-/

/-- Decimal exponent: for `q > 0` the unique `e` with
`10^e ≤ q < 10^(e+1)` (only the lower bound is needed below). -/
def decExp (q : ℚ) : ℤ :=
  if 1 ≤ q then (Nat.log 10 (⌊q⌋).toNat : ℤ)
  else -(Nat.clog 10 (⌈q⁻¹⌉).toNat : ℤ)

/-- Round to `s` significant decimal digits — the value denoted by
`%.{s-1}e` formatting. -/
def roundSig (s : ℕ) (q : ℚ) : ℚ :=
  if q = 0 then 0
  else (round (q / (10 : ℚ) ^ (decExp |q| - s + 1)) : ℤ) * (10 : ℚ) ^ (decExp |q| - s + 1)

/-- Round to `k` decimal places — the value denoted by `%.{k}f`
formatting. -/
def roundDec (k : ℕ) (q : ℚ) : ℚ := (round (q * 10 ^ k) : ℤ) / 10 ^ k

theorem zpow_decExp_le {q : ℚ} (hq : 0 < q) : (10 : ℚ) ^ decExp q ≤ q := by
  by_cases h1 : 1 ≤ q
  · rw [decExp, if_pos h1]
    have hfl : (1 : ℤ) ≤ ⌊q⌋ := Int.le_floor.mpr (by exact_mod_cast h1)
    have hlog := Nat.pow_log_le_self 10 (x := (⌊q⌋).toNat) (by omega)
    calc (10 : ℚ) ^ ((Nat.log 10 (⌊q⌋).toNat : ℕ) : ℤ)
        = ((10 ^ Nat.log 10 (⌊q⌋).toNat : ℕ) : ℚ) := by
          rw [zpow_natCast]; push_cast; ring
      _ ≤ (((⌊q⌋).toNat : ℕ) : ℚ) := by exact_mod_cast hlog
      _ = ((⌊q⌋ : ℤ) : ℚ) := by
          have h := Int.toNat_of_nonneg (show (0 : ℤ) ≤ ⌊q⌋ by omega)
          exact_mod_cast congrArg (fun z : ℤ => (z : ℚ)) h
      _ ≤ q := Int.floor_le q
  · rw [decExp, if_neg h1]
    have hq1 : q < 1 := lt_of_not_le h1
    have hz0 : 0 < q⁻¹ := inv_pos.mpr hq
    have hceil0 : (0 : ℤ) ≤ ⌈q⁻¹⌉ := Int.ceil_nonneg hz0.le
    have hle1 : q⁻¹ ≤ (((⌈q⁻¹⌉).toNat : ℕ) : ℚ) := by
      have h := Int.toNat_of_nonneg hceil0
      have h2 : (((⌈q⁻¹⌉).toNat : ℕ) : ℚ) = ((⌈q⁻¹⌉ : ℤ) : ℚ) :=
        by exact_mod_cast congrArg (fun z : ℤ => (z : ℚ)) h
      rw [h2]
      exact Int.le_ceil _
    have hle2 : (((⌈q⁻¹⌉).toNat : ℕ) : ℚ) ≤
        ((10 ^ Nat.clog 10 (⌈q⁻¹⌉).toNat : ℕ) : ℚ) := by
      exact_mod_cast Nat.le_pow_clog (by norm_num) _
    have hle : q⁻¹ ≤ (10 : ℚ) ^ (Nat.clog 10 (⌈q⁻¹⌉).toNat) := by
      refine le_trans hle1 (le_trans hle2 ?_)
      push_cast
      exact le_refl _
    have hpow : (0 : ℚ) < (10 : ℚ) ^ (Nat.clog 10 (⌈q⁻¹⌉).toNat) := by positivity
    have hx : 1 ≤ q * (10 : ℚ) ^ (Nat.clog 10 (⌈q⁻¹⌉).toNat) := by
      calc (1 : ℚ) = q * q⁻¹ := (mul_inv_cancel₀ (ne_of_gt hq)).symm
      _ ≤ q * (10 : ℚ) ^ (Nat.clog 10 (⌈q⁻¹⌉).toNat) :=
          mul_le_mul_of_nonneg_left hle hq.le
    rw [zpow_neg, zpow_natCast]
    calc ((10 : ℚ) ^ (Nat.clog 10 (⌈q⁻¹⌉).toNat))⁻¹
        = 1 / (10 : ℚ) ^ (Nat.clog 10 (⌈q⁻¹⌉).toNat) := by rw [one_div]
      _ ≤ q := by
          rw [div_le_iff₀ hpow]
          linarith [hx]

/-- Rounding to 9 significant digits keeps the relative error far below
the round-trip tolerance 1e-6. -/
theorem roundSig9_rel {q : ℚ} (hq : 0 ≤ q) : |roundSig 9 q - q| ≤ q / 10 ^ 6 := by
  rcases eq_or_lt_of_le hq with heq | hpos
  · rw [roundSig, if_pos heq.symm, ← heq]
    simp
  · rw [roundSig, if_neg (ne_of_gt hpos), abs_of_pos hpos]
    set E : ℤ := decExp q - ((9 : ℕ) : ℤ) + 1 with hE
    have hp : (0 : ℚ) < (10 : ℚ) ^ E := zpow_pos (by norm_num) E
    have hround : |q / (10 : ℚ) ^ E - (round (q / (10 : ℚ) ^ E) : ℤ)| ≤ 1 / 2 :=
      abs_sub_round _
    have hqe : (10 : ℚ) ^ decExp q ≤ q := zpow_decExp_le hpos
    have hsplit : ((round (q / (10 : ℚ) ^ E) : ℤ) : ℚ) * (10 : ℚ) ^ E - q =
        -(q / (10 : ℚ) ^ E - ((round (q / (10 : ℚ) ^ E) : ℤ) : ℚ)) * (10 : ℚ) ^ E := by
      field_simp
      ring
    rw [hsplit, abs_mul, abs_neg, abs_of_pos hp]
    have hstep : |q / (10 : ℚ) ^ E - ((round (q / (10 : ℚ) ^ E) : ℤ) : ℚ)| * (10 : ℚ) ^ E ≤
        (1 / 2) * (10 : ℚ) ^ E :=
      mul_le_mul_of_nonneg_right hround hp.le
    refine le_trans hstep ?_
    have hdec : (10 : ℚ) ^ decExp q = (10 : ℚ) ^ E * 10 ^ 8 := by
      rw [show decExp q = E + 8 by omega, zpow_add₀ (by norm_num : (10 : ℚ) ≠ 0)]
      norm_num
    have h100 : (10 : ℚ) ^ E * 10 ^ 8 / 10 ^ 6 = 100 * (10 : ℚ) ^ E := by
      field_simp
      ring
    have : (10 : ℚ) ^ E * 10 ^ 8 ≤ q := by rw [← hdec]; exact hqe
    have hq6 : 100 * (10 : ℚ) ^ E ≤ q / 10 ^ 6 := by
      rw [← h100]
      gcongr
    linarith

/-- Rounding to `k` decimal places stays within half a unit in the last
place. -/
theorem roundDec_abs (k : ℕ) (q : ℚ) : |roundDec k q - q| ≤ 1 / (2 * 10 ^ k) := by
  rw [roundDec]
  have h10 : (0 : ℚ) < 10 ^ k := by positivity
  have hr : |q * 10 ^ k - (round (q * 10 ^ k) : ℤ)| ≤ 1 / 2 := abs_sub_round _
  have heq : ((round (q * 10 ^ k) : ℤ) : ℚ) / 10 ^ k - q =
      -(q * 10 ^ k - ((round (q * 10 ^ k) : ℤ) : ℚ)) / 10 ^ k := by
    field_simp
    ring
  rw [heq, abs_div, abs_neg, abs_of_pos h10]
  rw [div_le_div_iff₀ h10 (by positivity : (0 : ℚ) < 2 * 10 ^ k)]
  calc |q * 10 ^ k - ((round (q * 10 ^ k) : ℤ) : ℚ)| * (2 * 10 ^ k)
      ≤ (1 / 2) * (2 * 10 ^ k) := mul_le_mul_of_nonneg_right hr (by positivity)
    _ = 1 * 10 ^ k := by ring

end Fmt

/-- Length of a flattened list of uniform-length blocks. -/
theorem flatten_length_uniform (w : ℕ) :
    ∀ (bs : List (List ℚ)), (∀ b ∈ bs, b.length = w) →
      bs.flatten.length = w * bs.length := by
  intro bs
  induction bs with
  | nil => intro _; simp
  | cons b t ih =>
    intro h
    rw [List.flatten_cons, List.length_append,
      ih (fun x hx => h x (List.mem_cons_of_mem b hx)),
      h b (List.mem_cons_self b t), List.length_cons]
    ring

/-- Element of a flattened list of uniform-length blocks. -/
theorem flatten_getD_uniform (w : ℕ) :
    ∀ (bs : List (List ℚ)) (fi r : ℕ), (∀ b ∈ bs, b.length = w) →
      fi < bs.length → r < w →
      bs.flatten.getD (w * fi + r) 0 = (bs.getD fi []).getD r 0 := by
  intro bs
  induction bs with
  | nil =>
    intro fi r _ hfi _
    exact absurd hfi (Nat.not_lt_zero fi)
  | cons b t ih =>
    intro fi r h hfi hr
    have hlen : b.length = w := h b (List.mem_cons_self b t)
    cases fi with
    | zero =>
      rw [List.flatten_cons, Nat.mul_zero, Nat.zero_add,
        List.getD_append _ _ _ _ (by rw [hlen]; exact hr)]
      rfl
    | succ fi' =>
      rw [List.flatten_cons]
      have hidx : w * (fi' + 1) + r = b.length + (w * fi' + r) := by
        rw [hlen]; ring
      rw [hidx, List.getD_append_right _ _ _ _ (Nat.le_add_right _ _),
        Nat.add_sub_cancel_left]
      exact ih fi' r (fun x hx => h x (List.mem_cons_of_mem b hx))
        (Nat.lt_of_succ_lt_succ hfi) hr

namespace Touchstone

/-!
Token-stream model of the Touchstone writer of `extract_sparameters.py`
(`write_s16p`, lines 139-177) and the Validator's parser
(`validate_s16p.py`, `parse_s16p`, lines 12-44).  The parser strips
comment (`!`), option (`#`) and blank lines and whitespace-splits
everything else into one flat token stream (lines 18-26), so the writer
is modelled by the stream of numeric tokens it prints; the
4-pairs-per-line wrapping (lines 170-176) moves line breaks only.
Each printed token is represented by the exact rational it denotes. -/

/-- The two tokens of one matrix entry, `f"{mag:.8e} {ang:.6f}"`
(lines 166-168). -/
def entryTokens (mag ang : ℕ → ℕ → ℕ → ℚ) (fi i j : ℕ) : List ℚ :=
  [Fmt.roundSig 9 (mag i j fi), Fmt.roundDec 6 (ang i j fi)]

/-- Row i of one frequency block: pairs for j = 0..15 (line 165). -/
def rowTokens (mag ang : ℕ → ℕ → ℕ → ℚ) (fi i : ℕ) : List ℚ :=
  ((List.range 16).map (fun j => entryTokens mag ang fi i j)).flatten

/-- The 256 row-major magnitude/angle pairs of one frequency
(lines 163-168). -/
def pairTokens (mag ang : ℕ → ℕ → ℕ → ℚ) (fi : ℕ) : List ℚ :=
  ((List.range 16).map (fun i => rowTokens mag ang fi i)).flatten

/-- One frequency block: `f"{freq/1e9:.10e}"` (line 172) followed by
the 256 pairs. -/
def freqBlock (mag ang : ℕ → ℕ → ℕ → ℚ) (freqs : List ℚ) (fi : ℕ) : List ℚ :=
  Fmt.roundSig 11 (freqs.getD fi 0 / 10 ^ 9) :: pairTokens mag ang fi

/-- The data-token stream `write_s16p` produces (lines 160-177). -/
def writeTokens (mag ang : ℕ → ℕ → ℕ → ℚ) (freqs : List ℚ) : List ℚ :=
  ((List.range freqs.length).map (freqBlock mag ang freqs)).flatten

/-- `n_freq = len(values) // vals_per_freq`, with
`vals_per_freq = 1 + 16*16*2 = 513` (parse_s16p, lines 29-30). -/
def parsedNFreq (toks : List ℚ) : ℕ := toks.length / 513

/-- `freqs[fi] = float(values[base])` (line 37). -/
def parsedFreq (toks : List ℚ) (fi : ℕ) : ℚ := toks.getD (513 * fi) 0

/-- Magnitude token of entry (i, j) at frequency `fi`: the parser's
running index is `k = base + 1 + 2*(16*i + j)` (lines 38-41).  The
parsed entry is `S[i,j,fi] = mag * exp(1j*radians(ang))` (line 42),
whose magnitude is this token for non-negative tokens. -/
def parsedMag (toks : List ℚ) (fi i j : ℕ) : ℚ :=
  toks.getD (513 * fi + (1 + 2 * (16 * i + j))) 0

/-- Angle token (degrees) of entry (i, j) at frequency `fi`
(lines 41-42). -/
def parsedAng (toks : List ℚ) (fi i j : ℕ) : ℚ :=
  toks.getD (513 * fi + (1 + 2 * (16 * i + j)) + 1) 0

theorem rowTokens_length (mag ang : ℕ → ℕ → ℕ → ℚ) (fi i : ℕ) :
    (rowTokens mag ang fi i).length = 32 := by
  rw [rowTokens, flatten_length_uniform 2 _ ?_, List.length_map, List.length_range]
  intro b hb
  obtain ⟨j, _, rfl⟩ := List.mem_map.mp hb
  rfl

theorem pairTokens_length (mag ang : ℕ → ℕ → ℕ → ℚ) (fi : ℕ) :
    (pairTokens mag ang fi).length = 512 := by
  rw [pairTokens, flatten_length_uniform 32 _ ?_, List.length_map, List.length_range]
  intro b hb
  obtain ⟨i, _, rfl⟩ := List.mem_map.mp hb
  exact rowTokens_length mag ang fi i

theorem freqBlock_length (mag ang : ℕ → ℕ → ℕ → ℚ) (freqs : List ℚ) (fi : ℕ) :
    (freqBlock mag ang freqs fi).length = 513 := by
  rw [freqBlock, List.length_cons, pairTokens_length]

theorem writeTokens_length (mag ang : ℕ → ℕ → ℕ → ℚ) (freqs : List ℚ) :
    (writeTokens mag ang freqs).length = 513 * freqs.length := by
  rw [writeTokens, flatten_length_uniform 513 _ ?_, List.length_map, List.length_range]
  intro b hb
  obtain ⟨fi, _, rfl⟩ := List.mem_map.mp hb
  exact freqBlock_length mag ang freqs fi

theorem pairTokens_getD (mag ang : ℕ → ℕ → ℕ → ℚ) (fi i j off : ℕ)
    (hi : i < 16) (hj : j < 16) (hoff : off < 2) :
    (pairTokens mag ang fi).getD (32 * i + (2 * j + off)) 0 =
      (entryTokens mag ang fi i j).getD off 0 := by
  rw [pairTokens, flatten_getD_uniform 32 _ i (2 * j + off) ?_
      (by rw [List.length_map, List.length_range]; exact hi) (by omega),
    getD_map_range _ _ hi, rowTokens, flatten_getD_uniform 2 _ j off ?_
      (by rw [List.length_map, List.length_range]; exact hj) hoff,
    getD_map_range _ _ hj]
  · intro b hb
    obtain ⟨j', _, rfl⟩ := List.mem_map.mp hb
    rfl
  · intro b hb
    obtain ⟨i', _, rfl⟩ := List.mem_map.mp hb
    exact rowTokens_length mag ang fi i'

theorem writeTokens_getD (mag ang : ℕ → ℕ → ℕ → ℚ) (freqs : List ℚ) (fi r : ℕ)
    (hfi : fi < freqs.length) (hr : r < 513) :
    (writeTokens mag ang freqs).getD (513 * fi + r) 0 =
      (freqBlock mag ang freqs fi).getD r 0 := by
  rw [writeTokens, flatten_getD_uniform 513 _ fi r ?_
      (by rw [List.length_map, List.length_range]; exact hfi) hr,
    getD_map_range _ _ hfi]
  intro b hb
  obtain ⟨fi', _, rfl⟩ := List.mem_map.mp hb
  exact freqBlock_length mag ang freqs fi'

theorem parsedMag_writeTokens (mag ang : ℕ → ℕ → ℕ → ℚ) (freqs : List ℚ)
    (fi i j : ℕ) (hfi : fi < freqs.length) (hi : i < 16) (hj : j < 16) :
    parsedMag (writeTokens mag ang freqs) fi i j = Fmt.roundSig 9 (mag i j fi) := by
  rw [parsedMag, writeTokens_getD mag ang freqs fi _ hfi (by omega), freqBlock,
    show 1 + 2 * (16 * i + j) = (2 * (16 * i + j)) + 1 by ring, List.getD_cons_succ,
    show 2 * (16 * i + j) = 32 * i + (2 * j + 0) by ring,
    pairTokens_getD mag ang fi i j 0 hi hj (by omega)]
  rfl

theorem parsedAng_writeTokens (mag ang : ℕ → ℕ → ℕ → ℚ) (freqs : List ℚ)
    (fi i j : ℕ) (hfi : fi < freqs.length) (hi : i < 16) (hj : j < 16) :
    parsedAng (writeTokens mag ang freqs) fi i j = Fmt.roundDec 6 (ang i j fi) := by
  rw [parsedAng, Nat.add_assoc,
    writeTokens_getD mag ang freqs fi _ hfi (by omega), freqBlock,
    show 1 + 2 * (16 * i + j) + 1 = (2 * (16 * i + j) + 1) + 1 by ring,
    List.getD_cons_succ,
    show 2 * (16 * i + j) + 1 = 32 * i + (2 * j + 1) by ring,
    pairTokens_getD mag ang fi i j 1 hi hj (by omega)]
  rfl

end Touchstone

/-- C7: serializing an S-matrix (given by its magnitude/angle values
per entry and frequency) with the Touchstone Writer `write_s16p` and
re-parsing the token stream with the Validator's `parse_s16p`
reproduces the frequency count, every magnitude within `1e-6` relative
error, and every angle within `1e-6` degrees. -/
theorem c7_touchstone_roundtrip (mag ang : ℕ → ℕ → ℕ → ℚ) (freqs : List ℚ)
    (hmag : ∀ i j fi, 0 ≤ mag i j fi) :
    Touchstone.parsedNFreq (Touchstone.writeTokens mag ang freqs) = freqs.length ∧
    ∀ fi i j, fi < freqs.length → i < 16 → j < 16 →
      |Touchstone.parsedMag (Touchstone.writeTokens mag ang freqs) fi i j - mag i j fi|
        ≤ mag i j fi / 10 ^ 6 ∧
      |Touchstone.parsedAng (Touchstone.writeTokens mag ang freqs) fi i j - ang i j fi|
        ≤ 1 / 10 ^ 6 := by
  constructor
  · rw [Touchstone.parsedNFreq, Touchstone.writeTokens_length,
      Nat.mul_div_cancel_left _ (by norm_num)]
  · intro fi i j hfi hi hj
    constructor
    · rw [Touchstone.parsedMag_writeTokens mag ang freqs fi i j hfi hi hj]
      exact Fmt.roundSig9_rel (hmag i j fi)
    · rw [Touchstone.parsedAng_writeTokens mag ang freqs fi i j hfi hi hj]
      refine le_trans (Fmt.roundDec_abs 6 (ang i j fi)) ?_
      norm_num

/-- C7 witness: concrete evaluation at the single-frequency matrix with
all magnitudes 1 and all angles 90 degrees. -/
theorem c7_touchstone_roundtrip_witness :
    (∀ (i j fi : ℕ), (0 : ℚ) ≤ (fun _ _ _ => (1 : ℚ)) i j fi) ∧
    Touchstone.parsedNFreq
      (Touchstone.writeTokens (fun _ _ _ => 1) (fun _ _ _ => 90) [0]) = 1 ∧
    |Touchstone.parsedMag
        (Touchstone.writeTokens (fun _ _ _ => 1) (fun _ _ _ => 90) [0]) 0 0 0 - 1|
      ≤ 1 / 10 ^ 6 ∧
    |Touchstone.parsedAng
        (Touchstone.writeTokens (fun _ _ _ => 1) (fun _ _ _ => 90) [0]) 0 0 0 - 90|
      ≤ 1 / 10 ^ 6 := by
  have h0 : ∀ (i j fi : ℕ), (0 : ℚ) ≤ (fun _ _ _ => (1 : ℚ)) i j fi :=
    fun _ _ _ => by norm_num
  have h := c7_touchstone_roundtrip (fun _ _ _ => 1) (fun _ _ _ => 90) [0] h0
  have hb := h.2 0 0 0 (by norm_num) (by norm_num) (by norm_num)
  exact ⟨h0, h.1, by simpa using hb.1, hb.2⟩

namespace Touchstone

/-- The serialized content of `write_s16p` in token form, including the
variable header data: scenario id, port count, frequency count, and
first/last frequency in GHz (lines 154-158; the remaining header text
is constant).  The writer reads no clock or other ambient state. -/
def writeFile (sid : ℕ) (mag ang : ℕ → ℕ → ℕ → ℚ) (freqs : List ℚ) :
    (ℕ × ℕ × ℕ × ℚ × ℚ) × List ℚ :=
  ((sid, 16, freqs.length, freqs.getD 0 0 / 10 ^ 9,
    freqs.getD (freqs.length - 1) 0 / 10 ^ 9),
   writeTokens mag ang freqs)

/-- Data-token stream of `generate_s16p.save_s16p_file` (lines
200-241): frequency in Hz (`%.6e`), then the 256 row-major pairs of
`%.6e` magnitude and `%.6e` angle in degrees. -/
def saveTokens (mag ang : ℕ → ℕ → ℕ → ℚ) (freqs : List ℚ) : List ℚ :=
  ((List.range freqs.length).map (fun fi =>
    Fmt.roundSig 7 (freqs.getD fi 0) ::
      ((List.range 16).map (fun i =>
        ((List.range 16).map (fun j =>
          [Fmt.roundSig 7 (mag i j fi), Fmt.roundSig 7 (ang i j fi)])).flatten)).flatten)).flatten

end Touchstone

/-- C9: the serialized bytes of both Touchstone writers are a
deterministic function of the S-matrix, the frequency axis and the
fixed configuration — the writers are pure functions of their
arguments (no timestamp or other ambient state appears in the model,
mirroring the sources, whose output statements print only constants
and formatted function arguments), so writing the same data twice
yields identical output. -/
theorem c9_writer_deterministic (sid1 sid2 : ℕ) (m1 m2 a1 a2 : ℕ → ℕ → ℕ → ℚ)
    (f1 f2 : List ℚ) (hs : sid1 = sid2) (hm : m1 = m2) (ha : a1 = a2)
    (hf : f1 = f2) :
    Touchstone.writeFile sid1 m1 a1 f1 = Touchstone.writeFile sid2 m2 a2 f2 ∧
    Touchstone.saveTokens m1 a1 f1 = Touchstone.saveTokens m2 a2 f2 := by
  subst hs hm ha hf
  exact ⟨rfl, rfl⟩

/-- C9 witness: two writes of the same concrete data coincide. -/
theorem c9_writer_deterministic_witness :
    Touchstone.writeFile 1 (fun _ _ _ => 1) (fun _ _ _ => 0) [0] =
      Touchstone.writeFile 1 (fun _ _ _ => 1) (fun _ _ _ => 0) [0] ∧
    Touchstone.saveTokens (fun _ _ _ => 1) (fun _ _ _ => 0) [0] =
      Touchstone.saveTokens (fun _ _ _ => 1) (fun _ _ _ => 0) [0] :=
  c9_writer_deterministic 1 1 (fun _ _ _ => 1) (fun _ _ _ => 1)
    (fun _ _ _ => 0) (fun _ _ _ => 0) [0] [0] rfl rfl rfl rfl

namespace Validate

/-!
Model of check 2 of `validate_s16p.validate` (lines 66-71).  The
matrix it checks comes from `parse_s16p`, which reconstructs
`S[i,j,fi] = mag * exp(1j*radians(ang))` (line 42); hence
`np.abs(S[i,j,fi]) = |mag|` and the check is a function of the parsed
magnitude tokens.  `max_mag = np.max(np.abs(S))` and a single warning
line (carrying the maximum) is printed iff `max_mag > 1.05`; the check
never raises.
-/

/-- `max_mag = np.max(np.abs(S))` (line 67), over a parsed matrix with
at least one frequency point. -/
def maxAbs {m : ℕ} (mag : Fin 16 → Fin 16 → Fin (m + 1) → ℚ) : ℚ :=
  Finset.univ.sup' Finset.univ_nonempty
    (fun p : Fin 16 × Fin 16 × Fin (m + 1) => |mag p.1 p.2.1 p.2.2|)

/-- Warning lines of the passivity check (lines 68-71): none when
`max_mag ≤ 1.05`, exactly one — carrying the excess maximum —
otherwise. -/
def passivityWarnings {m : ℕ} (mag : Fin 16 → Fin 16 → Fin (m + 1) → ℚ) : List ℚ :=
  if maxAbs mag ≤ 1.05 then [] else [maxAbs mag]

end Validate

/-- C8: the passivity check compares the maximum of |S[i][j][f]| over
all entries against the 1.05 tolerance.  A matrix in which every entry
has magnitude at most 1 passes with no warning; a matrix with one entry
of magnitude 1.2 (all others at most 1) produces exactly one warning
line referencing the excess value 1.2; exceeding the tolerance only
appends a warning — the check is a total function, never a crash. -/
theorem c8_passivity_check {m : ℕ}
    (S T : Fin 16 → Fin 16 → Fin (m + 1) → ℚ) (i0 j0 : Fin 16) (f0 : Fin (m + 1))
    (hS : ∀ i j f, |S i j f| ≤ 1)
    (hT0 : |T i0 j0 f0| = 1.2)
    (hT : ∀ i j f, (i, j, f) ≠ (i0, j0, f0) → |T i j f| ≤ 1) :
    Validate.passivityWarnings S = [] ∧
    Validate.passivityWarnings T = [(1.2 : ℚ)] := by
  constructor
  · rw [Validate.passivityWarnings, if_pos]
    refine le_trans (Finset.sup'_le _ _ (fun p _ => hS p.1 p.2.1 p.2.2)) ?_
    norm_num
  · have hmax : Validate.maxAbs T = 1.2 := by
      apply le_antisymm
      · apply Finset.sup'_le
        intro p _
        by_cases hp : p = (i0, j0, f0)
        · rw [hp]
          exact le_of_eq hT0
        · refine le_trans (hT p.1 p.2.1 p.2.2 ?_) (by norm_num)
          rw [show (p.1, p.2.1, p.2.2) = p from rfl]
          exact hp
      · calc (1.2 : ℚ) = |T i0 j0 f0| := hT0.symm
        _ ≤ _ := Finset.le_sup'
            (fun p : Fin 16 × Fin 16 × Fin (m + 1) => |T p.1 p.2.1 p.2.2|)
            (Finset.mem_univ (i0, j0, f0))
    rw [Validate.passivityWarnings, hmax, if_neg (by norm_num)]

/-- Fixture for the C8 witness: the all-zero parsed matrix at a single
frequency point. -/
def sZero : Fin 16 → Fin 16 → Fin 1 → ℚ := fun _ _ _ => 0

/-- Fixture for the C8 witness: one entry of magnitude 1.2, all others
zero. -/
def tSpike : Fin 16 → Fin 16 → Fin 1 → ℚ :=
  fun i j _ => if i = 0 ∧ j = 0 then 1.2 else 0

/-- C8 witness: the two concrete matrices of the claim. -/
theorem c8_passivity_check_witness :
    ((∀ (i j : Fin 16) (f : Fin 1), |sZero i j f| ≤ 1) ∧
     |tSpike 0 0 0| = 1.2 ∧
     (∀ (i j : Fin 16) (f : Fin 1),
       (i, j, f) ≠ ((0 : Fin 16), (0 : Fin 16), (0 : Fin 1)) → |tSpike i j f| ≤ 1)) ∧
    Validate.passivityWarnings sZero = [] ∧
    Validate.passivityWarnings tSpike = [(1.2 : ℚ)] := by
  have h1 : ∀ (i j : Fin 16) (f : Fin 1), |sZero i j f| ≤ 1 := by
    intro i j f
    simp [sZero]
  have h2 : |tSpike 0 0 0| = 1.2 := by
    rw [show tSpike 0 0 0 = 1.2 from if_pos ⟨rfl, rfl⟩]
    norm_num
  have h3 : ∀ (i j : Fin 16) (f : Fin 1),
      (i, j, f) ≠ ((0 : Fin 16), (0 : Fin 16), (0 : Fin 1)) → |tSpike i j f| ≤ 1 := by
    intro i j f hne
    by_cases hij : i = 0 ∧ j = 0
    · exfalso
      apply hne
      rw [hij.1, hij.2, Subsingleton.elim f 0]
    · rw [show tSpike i j f = 0 from if_neg hij]
      norm_num
  exact ⟨⟨h1, h2, h3⟩, c8_passivity_check sZero tSpike 0 0 0 h1 h2 h3⟩
